import Mathlib

/-!
Verification of the ESBridge substrate relayer core against its specification.

The embedding covers the block-follower and coordination-ledger logic of the
listener (source file src/unnamed/part_000, package substrate) and the
multi-signature submitter (src/chains/substrate/writer.go).  Pure functions of
the Go source become Lean functions; the Go map holding the ledger becomes an
association list with Go-map semantics; unsigned 64-bit arithmetic is Nat with
explicit reduction modulo 2^64.
-/

namespace ESBridge

/-- Size of the unsigned 64-bit integer domain, for Go uint64 wrap-around. -/
def U64SIZE : Nat := 2 ^ 64

/-- writer.go line 26: the constant oneToken = 1000000, the bridge
decimal-adjustment divisor applied to inbound payload amounts. -/
def oneToken : Nat := 1000000

/-- The (block number, extrinsic index) identity of a multi-sig origin, type
MultiSignTx of the substrate package.  The block number is a signed 64-bit
integer in the source (the sentinel value uses -1); the extrinsic index is an
unsigned integer. -/
structure MultiSignTx where
  blockNumber : Int
  multiSignTxId : Nat
deriving DecidableEq

/-- writer.go lines 29-32: the sentinel
NotExecuted = MultiSignTx\x7bBlockNumber: -1, MultiSignTxId: 0\x7d. -/
def NotExecuted : MultiSignTx := ⟨-1, 0⟩

/-- The ledger record, type MultiSigAsMulti of the substrate package: whether
the multi-sig executed, its parameters, the list of otherSignatories vectors of
the observed votes, and the originating (block, index) key. -/
structure MultiSigAsMulti where
  executed : Bool
  threshold : Nat
  maybeTimePoint : Option (Nat × Nat)
  destAddress : String
  destAmount : String
  others : List (List String)
  storeCall : Bool
  maxWeight : Nat
  originMsTx : MultiSignTx
deriving DecidableEq

/-- The coordination ledger, field msTxAsMulti of the listener: a Go map from
MultiSignTx to MultiSigAsMulti, modelled as an association list whose keys are
kept unique by the insert operation. -/
abbrev Ledger := List (MultiSignTx × MultiSigAsMulti)

/-- Go map lookup in msTxAsMulti. -/
def ledgerLookup (led : Ledger) (k : MultiSignTx) : Option MultiSigAsMulti :=
  (led.find? (fun kv => decide (kv.1 = k))).map Prod.snd

/-- Go map assignment: replaces the binding when the key is present, otherwise
adds a fresh binding. -/
def ledgerInsert (led : Ledger) (k : MultiSignTx) (v : MultiSigAsMulti) : Ledger :=
  if led.any (fun kv => decide (kv.1 = k)) then
    led.map (fun kv => if kv.1 = k then (k, v) else kv)
  else
    led ++ [(k, v)]

/-- Go builtin delete on the msTxAsMulti map, as used by ResolveMessage in
writer.go line 85. -/
def ledgerDelete (led : Ledger) (k : MultiSignTx) : Ledger :=
  led.filter (fun kv => !decide (kv.1 = k))

/-- Per-record body of markVote (part_000 lines 286-295): a record that is not
executed and matches the destination address and amount of the observed vote
gets the otherSignatories vector of the vote appended to its others list. -/
def voteUpd (dest amt : String) (sigs : List String) (ms : MultiSigAsMulti) :
    MultiSigAsMulti :=
  if ms.executed = false ∧ ms.destAddress = dest ∧ ms.destAmount = amt then
    { ms with others := ms.others ++ [sigs] }
  else ms

/-- part_000 lines 286-295, markVote: iterates over every entry of the ledger
map and applies the vote update to the matching un-executed records. -/
def markVote (led : Ledger) (dest amt : String) (sigs : List String) : Ledger :=
  led.map (fun kv => (kv.1, voteUpd dest amt sigs kv.2))

/-- Per-record body of markExecution (part_000 lines 275-284): a record that is
not executed and matches the destination address and amount is marked
executed. -/
def execUpd (dest amt : String) (ms : MultiSigAsMulti) : MultiSigAsMulti :=
  if ms.executed = false ∧ ms.destAddress = dest ∧ ms.destAmount = amt then
    { ms with executed := true }
  else ms

/-- part_000 lines 275-284, markExecution: iterates over every entry of the
ledger map and marks the matching un-executed records executed. -/
def markExecution (led : Ledger) (dest amt : String) : Ledger :=
  led.map (fun kv => (kv.1, execUpd dest amt kv.2))

/-- writer.go lines 283-317, isFinish.  Relayer accounts are modelled by their
hex account-id strings: the source compares the Address built from each
signatory hex id with the Address built from the relayer public key, which is
equality of account ids.  If the record executed, returns (true, origin key).
Otherwise, if some observed vote has an otherSignatories vector not containing
the relayer account (the inner loop leaves isVote true), returns
(true, NotExecuted).  Otherwise returns (false, NotExecuted). -/
def isFinish (relayerAccount : String) (ms : MultiSigAsMulti) :
    Bool × MultiSignTx :=
  if ms.executed then (true, ms.originMsTx)
  else if ms.others.any (fun sigs => !sigs.contains relayerAccount) then
    (true, NotExecuted)
  else (false, NotExecuted)

/-- Unsigned 64-bit subtraction with Go wrap-around semantics. -/
def u64Sub (a b : Nat) : Nat :=
  (a % U64SIZE + (U64SIZE - b % U64SIZE)) % U64SIZE

/-- writer.go lines 107-108: the payload amount divided by oneToken, taken as a
uint64 by bigAmt.Uint64() (low 64 bits). -/
def bigAmtU64 (payloadAmount : Nat) : Nat :=
  payloadAmount / oneToken % U64SIZE

/-- writer.go line 111: actualAmount := bigAmt.Uint64() - fee, an unsigned
64-bit subtraction. -/
def redeemActualAmount (bigAmt fee : Nat) : Nat :=
  u64Sub bigAmt fee

/-- writer.go line 112: the guard actualAmount < 0, a comparison of the
unsigned 64-bit value actualAmount against zero. -/
def redeemGuardFires (bigAmt fee : Nat) : Bool :=
  decide (redeemActualAmount bigAmt fee < 0)

/-- writer.go line 83: the deletion guard of ResolveMessage,
currentTx.BlockNumber != NotExecuted.BlockNumber &&
currentTx.MultiSignTxId != NotExecuted.MultiSignTxId. -/
def resolveShouldDelete (currentTx : MultiSignTx) : Bool :=
  decide (currentTx.blockNumber ≠ NotExecuted.blockNumber) &&
    decide (currentTx.multiSignTxId ≠ NotExecuted.multiSignTxId)

/-- writer.go lines 80-87: when redeemTx reports a finished transfer with key
currentTx, ResolveMessage deletes the record only when the deletion guard
holds. -/
def resolveCleanup (led : Ledger) (currentTx : MultiSignTx) : Ledger :=
  if resolveShouldDelete currentTx then ledgerDelete led currentTx else led

/-- Decimal digit value of a character, for the ParseInt model. -/
def digitVal (c : Char) : Option Nat :=
  if '0' ≤ c ∧ c ≤ '9' then some (c.toNat - '0'.toNat) else none

/-- Parse a non-empty list of decimal digit characters into a Nat; any
non-digit character or an empty list fails. -/
def parseDigits (cs : List Char) : Option Nat :=
  if cs.isEmpty then none
  else
    cs.foldl (fun acc c =>
      match acc, digitVal c with
      | some n, some d => some (n * 10 + d)
      | _, _ => none) (some 0)

/-- Model of Go strconv.ParseInt(s, 10, 64): an optional sign followed by at
least one decimal digit, with the 64-bit range check.  The source aborts on a
non-nil error, which includes range errors, so out-of-range values are none. -/
def parseInt64 (s : String) : Option Int :=
  match s.toList with
  | '+' :: rest => (parseDigits rest).bind fun n =>
      if (n : Int) ≤ 2 ^ 63 - 1 then some (n : Int) else none
  | '-' :: rest => (parseDigits rest).bind fun n =>
      if (n : Int) ≤ 2 ^ 63 then some (-(n : Int)) else none
  | cs => (parseDigits cs).bind fun n =>
      if (n : Int) ≤ 2 ^ 63 - 1 then some (n : Int) else none

/-- Fuel-driven decimal digit expansion, most significant digit first; the fuel
argument makes the recursion structural. -/
def natDigitsAux : Nat → Nat → List Nat
  | 0, _ => []
  | fuel + 1, n => if n = 0 then [] else natDigitsAux fuel (n / 10) ++ [n % 10]

/-- The decimal digits of n as printed by Go strconv.FormatInt(n, 10) for
non-negative n: zero prints as the single digit 0. -/
def decDigits (n : Nat) : List Nat :=
  if n = 0 then [0] else natDigitsAux (n + 1) n

/-- Decimal reading of a digit list, as strconv.ParseInt reads a digit
string. -/
def parseDecimal (ds : List Nat) : Nat :=
  ds.foldl (fun acc d => acc * 10 + d) 0

/-- part_000 line 241: the nonce digit concatenation
ParseInt(FormatInt(block, 10) + FormatInt(extrinsicIndex, 10), 10, 64), as a
Nat (the in-range value read back from the concatenated decimal strings). -/
def transferNonce (block idx : Nat) : Nat :=
  parseDecimal (decDigits block ++ decDigits idx)

/-- Number of decimal digits in the printed form of n. -/
def decLen (n : Nat) : Nat := (decDigits n).length

/-- part_000 line 241 including the discarded ParseInt error: when the
concatenation exceeds the 63-bit range, ParseInt returns the clamped maximum
value together with an error that the source ignores. -/
def depositNonceOf (block idx : Nat) : Int :=
  if (transferNonce block idx : Int) ≤ 2 ^ 63 - 1 then
    (transferNonce block idx : Int)
  else 2 ^ 63 - 1

/-- Fee model of part_000 line 236, fee := int64(FixedFee + float64(amount) *
FeeRate), with the package constants FixedFee = 0 * DOT = 0 and FeeRate = 0.001
(part_000 lines 49-51).  The Go computation is IEEE-754 binary64: the nearest
double to 0.001 is 4611686018427388 / 2^62, the conversion float64(amount) is
exact for every amount with absolute value below 2^53, and the int64 conversion
truncates toward zero.  We model the fee as the exact rational product
truncated toward zero.  Rounding the product to the nearest double can move the
truncated integer when the exact product lies within half an ulp of an integer
boundary, so this model can differ from the Go value by one at some amounts
(for example 9000000000000999, where the double product rounds up across the
integer 9000000000001).  Therefore no theorem below asserts the fee value over
a range of amounts; the fee is evaluated only at the concrete amounts 0 and
1000000, where the double computation provably coincides with this model
(1000000 * 0.001 rounds to exactly 1000.0, and the product at 0 is exact). -/
def goFee (amount : Int) : Int :=
  Int.tdiv (amount * 4611686018427388) 4611686018427387904

/-- The four extrinsic classifications of the go-polkadot-rpc-client decoder
consumed by processBlock. -/
inductive ExtrinsicType
  | asMultiNew
  | asMultiApprove
  | asMultiExecuted
  | utilityBatch
deriving DecidableEq

/-- The MultiSigAsMulti payload of a decoded extrinsic response. -/
structure MultiSigPayload where
  threshold : Nat
  maybeTimePoint : Option (Nat × Nat)
  destAddress : String
  destAmount : String
  otherSignatories : List String
  storeCall : Bool
  maxWeight : Nat
deriving DecidableEq

/-- The fields of models.ExtrinsicResponse consumed by processBlock. -/
structure ExtrinsicResponse where
  extrinsicIndex : Nat
  type : ExtrinsicType
  amount : String
  recipient : String
  fromAddress : String
  multiSigAsMulti : MultiSigPayload
deriving DecidableEq

/-- The listener configuration fields consumed by the message construction:
chainId (source), destId and resourceId. -/
structure ListenerCfg where
  chainId : Nat
  destId : Nat
  resourceId : Nat
deriving DecidableEq

/-- The outbound Transfer message built by msg.NewFungibleTransfer in part_000
lines 243-250. -/
structure Message where
  source : Nat
  destination : Nat
  depositNonce : Int
  amount : Int
  resourceId : Nat
  recipient : String
deriving DecidableEq

/-- part_000 lines 179-258: the per-extrinsic body of processBlock.  Returns
the updated ledger, the Transfer message handed to the router (if any) and the
error aborting the block (if any).  AsMultiNew inserts a record keyed by the
current (block, index) with the single observed otherSignatories vector;
AsMultiApprove appends the vote to every matching un-executed record;
AsMultiExecuted appends the vote and then marks those records executed;
UtilityBatch parses the decimal amount (failure aborts the block), computes
fee and actual amount and emits the Transfer message. -/
def processExtrinsic (cfg : ListenerCfg) (blockNum : Nat) (led : Ledger)
    (e : ExtrinsicResponse) : Ledger × Option Message × Option String :=
  let currentTx : MultiSignTx := ⟨(blockNum : Int), e.extrinsicIndex⟩
  match e.type with
  | ExtrinsicType.asMultiNew =>
    let msTx : MultiSigAsMulti :=
      { executed := false
        threshold := e.multiSigAsMulti.threshold
        maybeTimePoint := e.multiSigAsMulti.maybeTimePoint
        destAddress := e.multiSigAsMulti.destAddress
        destAmount := e.multiSigAsMulti.destAmount
        others := [e.multiSigAsMulti.otherSignatories]
        storeCall := e.multiSigAsMulti.storeCall
        maxWeight := e.multiSigAsMulti.maxWeight
        originMsTx := currentTx }
    (ledgerInsert led currentTx msTx, none, none)
  | ExtrinsicType.asMultiApprove =>
    (markVote led e.multiSigAsMulti.destAddress e.multiSigAsMulti.destAmount
      e.multiSigAsMulti.otherSignatories, none, none)
  | ExtrinsicType.asMultiExecuted =>
    let led1 := markVote led e.multiSigAsMulti.destAddress
      e.multiSigAsMulti.destAmount e.multiSigAsMulti.otherSignatories
    (markExecution led1 e.multiSigAsMulti.destAddress
      e.multiSigAsMulti.destAmount, none, none)
  | ExtrinsicType.utilityBatch =>
    match parseInt64 e.amount with
    | none => (led, none, some e.amount)
    | some amount =>
      let fee := goFee amount
      let actualAmount := amount - fee
      let m : Message :=
        { source := cfg.chainId
          destination := cfg.destId
          depositNonce := depositNonceOf blockNum e.extrinsicIndex
          amount := actualAmount
          resourceId := cfg.resourceId
          recipient := e.recipient }
      (led, some m, none)

/-- part_000 lines 166-260, processBlock over the extrinsic list of one block:
ledger mutations persist up to the first aborting error and the remaining
extrinsics of the block are not processed. -/
def processExtrinsics (cfg : ListenerCfg) (blockNum : Nat) (led : Ledger) :
    List ExtrinsicResponse → Ledger × List Message × Option String
  | [] => (led, [], none)
  | e :: rest =>
    let r := processExtrinsic cfg blockNum led e
    match r.2.2 with
    | some err => (r.1, r.2.1.toList, some err)
    | none =>
      let r2 := processExtrinsics cfg blockNum r.1 rest
      (r2.1, r.2.1.toList ++ r2.2.1, r2.2.2)

/-- The observable follower state: the block cursor, the ledger, the blocks
persisted to the block store and the messages handed to the router. -/
structure FollowerState where
  currentBlock : Nat
  led : Ledger
  stored : List Nat
  sent : List Message
deriving DecidableEq

/-- part_000 pollBlocks lines 143-161, one successful iteration: processBlock
runs on the current block, a processBlock error is only printed, and the block
is written to the block store and the cursor advanced regardless of that
error. -/
def pollStep (cfg : ListenerCfg) (st : FollowerState)
    (extrinsics : List ExtrinsicResponse) : FollowerState :=
  let r := processExtrinsics cfg st.currentBlock st.led extrinsics
  { currentBlock := st.currentBlock + 1
    led := r.1
    stored := st.stored ++ [st.currentBlock]
    sent := st.sent ++ r.2.1 }

/-- The follower loop over consecutive finalized blocks, each given by its
extrinsic list; the cursor numbers the blocks. -/
def runFollower (cfg : ListenerCfg) (st : FollowerState) :
    List (List ExtrinsicResponse) → FollowerState
  | [] => st
  | blk :: rest => runFollower cfg (pollStep cfg st blk) rest

/-- The follower starts with an empty ledger at the configured start block. -/
def initFollower (startBlock : Nat) : FollowerState :=
  ⟨startBlock, [], [], []⟩

/-- Two ledger entries match semantically in the sense of the spec: both are
un-executed and carry the same (destAddress, destAmount) pair. -/
def unexecutedPairMatch (a b : MultiSignTx × MultiSigAsMulti) : Bool :=
  !a.2.executed && !b.2.executed &&
    a.2.destAddress == b.2.destAddress && a.2.destAmount == b.2.destAmount

/-- The spec invariant of section 3: the ledger never holds two un-executed
records with the same (destAddress, destAmount) pair. -/
def atMostOneInFlight : Ledger → Bool
  | [] => true
  | kv :: rest =>
    rest.all (fun kv2 => !unexecutedPairMatch kv kv2) && atMostOneInFlight rest

/-- A MultiSigAsMulti payload with no interesting content, for the batch
extrinsic fixtures (processBlock ignores the payload of UtilityBatch). -/
def emptyPay : MultiSigPayload :=
  { threshold := 0
    maybeTimePoint := none
    destAddress := ""
    destAmount := ""
    otherSignatories := []
    storeCall := false
    maxWeight := 0 }

/-- A MultiSigAsMulti payload carrying a destination, an amount and one
otherSignatories vector, for the multi-sig extrinsic fixtures. -/
def newPay (dest amt : String) (sigs : List String) : MultiSigPayload :=
  { threshold := 2
    maybeTimePoint := none
    destAddress := dest
    destAmount := amt
    otherSignatories := sigs
    storeCall := false
    maxWeight := 0 }

/-- An AsMultiNew extrinsic fixture. -/
def newE (idx : Nat) (dest amt : String) (sigs : List String) :
    ExtrinsicResponse :=
  { extrinsicIndex := idx, type := ExtrinsicType.asMultiNew, amount := "",
    recipient := "", fromAddress := "", multiSigAsMulti := newPay dest amt sigs }

/-- The UtilityBatch extrinsic of spec scenario 4: index 4, amount 1000000,
recipient 0xdead. -/
def batch9 : ExtrinsicResponse :=
  { extrinsicIndex := 4, type := ExtrinsicType.utilityBatch,
    amount := "1000000", recipient := "0xdead", fromAddress := "",
    multiSigAsMulti := emptyPay }

/-- A UtilityBatch extrinsic whose amount is zero after the fee. -/
def batch0 : ExtrinsicResponse :=
  { extrinsicIndex := 0, type := ExtrinsicType.utilityBatch, amount := "0",
    recipient := "r", fromAddress := "", multiSigAsMulti := emptyPay }

/-- A UtilityBatch extrinsic whose amount does not parse. -/
def batchBad : ExtrinsicResponse :=
  { extrinsicIndex := 0, type := ExtrinsicType.utilityBatch,
    amount := "not-a-number", recipient := "x", fromAddress := "",
    multiSigAsMulti := emptyPay }

/-- A well-formed UtilityBatch extrinsic following batchBad in the same
block. -/
def batchGood : ExtrinsicResponse :=
  { extrinsicIndex := 1, type := ExtrinsicType.utilityBatch, amount := "1000",
    recipient := "y", fromAddress := "", multiSigAsMulti := emptyPay }

/-- An executed ledger record whose origin key has extrinsic index 0. -/
def msExec0 : MultiSigAsMulti :=
  { executed := true
    threshold := 2
    maybeTimePoint := none
    destAddress := "cd"
    destAmount := "200"
    others := [["A"]]
    storeCall := false
    maxWeight := 1
    originMsTx := ⟨5, 0⟩ }

/-- An executed ledger record keyed at block 0, index 0. -/
def msW : MultiSigAsMulti :=
  { executed := true
    threshold := 2
    maybeTimePoint := none
    destAddress := "ab"
    destAmount := "100"
    others := [["A"]]
    storeCall := false
    maxWeight := 0
    originMsTx := ⟨0, 0⟩ }

/-- A follower state at block 1 whose ledger holds the executed record msW. -/
def stW : FollowerState := ⟨1, [(⟨0, 0⟩, msW)], [], []⟩

/-- An un-executed record whose single observed vote does not list the account
of relayer A (so by the pallet convention relayer A was the caller). -/
def msNotVoted : MultiSigAsMulti :=
  { executed := false
    threshold := 2
    maybeTimePoint := none
    destAddress := "ab"
    destAmount := "100"
    others := [["B"]]
    storeCall := false
    maxWeight := 0
    originMsTx := ⟨3, 1⟩ }

end ESBridge

namespace ESBridge

/-! Helper lemmas on decimal digit lists. -/

theorem parseDecimal_foldl (ds : List Nat) (acc : Nat) :
    ds.foldl (fun a d => a * 10 + d) acc =
      acc * 10 ^ ds.length + parseDecimal ds := by
  induction ds generalizing acc with
  | nil => simp [parseDecimal]
  | cons d t ih =>
    have hd : parseDecimal (d :: t) = d * 10 ^ t.length + parseDecimal t := by
      have := ih d
      simpa [parseDecimal] using this
    simp only [List.foldl_cons, List.length_cons, hd, ih (acc * 10 + d)]
    ring

theorem parseDecimal_append (xs ys : List Nat) :
    parseDecimal (xs ++ ys) =
      parseDecimal xs * 10 ^ ys.length + parseDecimal ys := by
  simp only [parseDecimal, List.foldl_append]
  exact parseDecimal_foldl ys _

theorem natDigitsAux_parse :
    ∀ fuel n : Nat, n < fuel → parseDecimal (natDigitsAux fuel n) = n := by
  intro fuel
  induction fuel with
  | zero => intro n h; omega
  | succ f ih =>
    intro n h
    by_cases hn : n = 0
    · simp [natDigitsAux, hn, parseDecimal]
    · have hdiv : n / 10 < f := by
        have h1 : n / 10 < n := Nat.div_lt_self (Nat.pos_of_ne_zero hn) (by norm_num)
        omega
      have := ih (n / 10) hdiv
      simp only [natDigitsAux, hn, if_false, parseDecimal_append, this]
      have hm : parseDecimal [n % 10] = n % 10 := by simp [parseDecimal]
      rw [hm]
      simp only [List.length_singleton, pow_one]
      omega

theorem natDigitsAux_lt :
    ∀ fuel n : Nat, n < fuel → n < 10 ^ (natDigitsAux fuel n).length := by
  intro fuel
  induction fuel with
  | zero => intro n h; omega
  | succ f ih =>
    intro n h
    by_cases hn : n = 0
    · simp [natDigitsAux, hn]
    · have hdiv : n / 10 < f := by
        have h1 : n / 10 < n := Nat.div_lt_self (Nat.pos_of_ne_zero hn) (by norm_num)
        omega
      have hlt := ih (n / 10) hdiv
      simp only [natDigitsAux, hn, if_false, List.length_append,
        List.length_singleton]
      have : n < 10 * (n / 10) + 10 := by omega
      calc n < 10 * (n / 10) + 10 := this
        _ ≤ 10 * 10 ^ (natDigitsAux f (n / 10)).length := by omega
        _ = 10 ^ ((natDigitsAux f (n / 10)).length + 1) := by ring

theorem parseDecimal_decDigits (n : Nat) : parseDecimal (decDigits n) = n := by
  by_cases hn : n = 0
  · simp [decDigits, hn, parseDecimal]
  · simp only [decDigits, hn, if_false]
    exact natDigitsAux_parse (n + 1) n (Nat.lt_succ_self n)

theorem lt_pow_decLen (n : Nat) : n < 10 ^ decLen n := by
  by_cases hn : n = 0
  · simp [decLen, decDigits, hn]
  · simp only [decLen, decDigits, hn, if_false]
    exact natDigitsAux_lt (n + 1) n (Nat.lt_succ_self n)

theorem transferNonce_eq (b i : Nat) :
    transferNonce b i = b * 10 ^ decLen i + i := by
  simp only [transferNonce, decLen, parseDecimal_append, parseDecimal_decDigits]

end ESBridge

namespace ESBridge

/-- C3 counterexample: processing two blocks, each holding one AsMultiNew
extrinsic with destination "ab" and amount "100", from the empty ledger leaves
two un-executed records with the same (destAddress, destAmount) pair in the
ledger, violating the at-most-one-in-flight invariant. -/
theorem C3_counterexample :
    atMostOneInFlight (runFollower ⟨1, 2, 7⟩ (initFollower 1)
      [[newE 0 "ab" "100" ["A"]], [newE 0 "ab" "100" ["B"]]]).led = false := by
  decide

/-- C4 counterexample: the UtilityBatch extrinsic with amount "0" parses to 0,
its amount minus the fee is not positive, and processBlock nevertheless hands a
Transfer message to the router — the transfer is not dropped. -/
theorem C4_counterexample :
    parseInt64 batch0.amount = some 0 ∧ (0 : Int) - goFee 0 ≤ 0 ∧
      ((processExtrinsic ⟨1, 2, 7⟩ 10 [] batch0).2.1).isSome = true := by
  refine ⟨by decide, by decide, by decide⟩

/-- C5 counterexample: the nonce derivation by decimal concatenation collides
on the distinct pairs (block 1, index 23) and (block 12, index 3), both of
which yield 123, well inside the 63-bit range. -/
theorem C5_counterexample :
    transferNonce 1 23 = transferNonce 12 3 ∧
      ((1 : Nat), (23 : Nat)) ≠ ((12 : Nat), (3 : Nat)) ∧
      (transferNonce 1 23 : Int) ≤ 2 ^ 63 - 1 := by
  refine ⟨by decide, by decide, by decide⟩

/-- C7: evaluation at the failing input.  For the executed record whose origin
key is (block 5, extrinsic index 0), isFinish reports the record executed and
returns its origin key, the origin key differs from the NotExecuted sentinel,
yet the ResolveMessage deletion guard of writer.go line 83 is false (it
requires the index to differ from 0 as well), so the record is not deleted
from the ledger. -/
theorem C7_code_bug_eval :
    isFinish "A" msExec0 = (true, (⟨5, 0⟩ : MultiSignTx)) ∧
      (⟨5, 0⟩ : MultiSignTx) ≠ NotExecuted ∧
      resolveShouldDelete ⟨5, 0⟩ = false ∧
      resolveCleanup [(⟨5, 0⟩, msExec0)] ⟨5, 0⟩ = [(⟨5, 0⟩, msExec0)] := by
  refine ⟨by decide, by decide, by decide, by decide⟩

/-- C8: the guard of writer.go line 112 compares the unsigned 64-bit
actualAmount against zero, so it never fires for any amount and fee; at the
failing input (bigAmt 5, fee 10, reachable for a payload of 5000000 with a
positive FixedFee) the subtraction wraps around to 2^64 - 5 and redeemTx
proceeds instead of terminating with NotExecuted. -/
theorem C8_code_bug_eval :
    (∀ bigAmt fee : Nat, redeemGuardFires bigAmt fee = false) ∧
      bigAmtU64 5000000 = 5 ∧
      redeemActualAmount 5 10 = U64SIZE - 5 := by
  refine ⟨fun a f => ?_, by decide, by decide⟩
  simp [redeemGuardFires]

/-- C9: spec scenario 4.  Processing block 200 whose extrinsic at index 4 is
UtilityBatch with amount "1000000" and recipient "0xdead" hands the router
exactly one Transfer message, with amount 999000 and nonce 2004. -/
theorem C9_scenario :
    processExtrinsics ⟨1, 2, 7⟩ 200 [] [batch9] =
      ([], [{ source := 1, destination := 2, depositNonce := 2004,
              amount := 999000, resourceId := 7, recipient := "0xdead" }],
        none) := by decide

/-- C10: evaluation at the failing input.  In a block at cursor 7 whose first
extrinsic is a UtilityBatch with an unparsable amount, processBlock aborts: no
message is produced for the well-formed second extrinsic and the error is
returned.  But the pollBlocks iteration still writes block 7 to the block
store and advances the cursor to 8 — the failed block is not retried. -/
theorem C10_code_bug_eval :
    (processExtrinsics ⟨1, 2, 7⟩ 7 [] [batchBad, batchGood]).2.1 = [] ∧
      (processExtrinsics ⟨1, 2, 7⟩ 7 [] [batchBad, batchGood]).2.2 =
        some "not-a-number" ∧
      (pollStep ⟨1, 2, 7⟩ (initFollower 7) [batchBad, batchGood]).currentBlock
        = 8 ∧
      (pollStep ⟨1, 2, 7⟩ (initFollower 7) [batchBad, batchGood]).stored
        = [7] := by
  refine ⟨by decide, by decide, by decide, by decide⟩

end ESBridge

namespace ESBridge

/-- Helper: uniqueness of quotient and remainder for Nat. -/
theorem mulAddCancel (m a b r s : Nat) (hr : r < m) (hs : s < m)
    (h : a * m + r = b * m + s) : a = b ∧ r = s := by
  have hm : 0 < m := Nat.pos_of_ne_zero (by omega)
  have ha : (a * m + r) / m = a := by
    rw [Nat.mul_comm a m, Nat.mul_add_div hm, Nat.div_eq_of_lt hr,
      Nat.add_zero]
  have hb : (b * m + s) / m = b := by
    rw [Nat.mul_comm b m, Nat.mul_add_div hm, Nat.div_eq_of_lt hs,
      Nat.add_zero]
  have hab : a = b := by rw [← ha, ← hb, h]
  subst hab
  exact ⟨rfl, by omega⟩

/-- C5 amended: the nonce derivation is injective on pairs whose extrinsic
index prints with a fixed number of decimal digits; distinct pairs with the
same index digit width always yield distinct nonces. -/
theorem C5_amended (b1 i1 b2 i2 : Nat) (hlen : decLen i1 = decLen i2)
    (heq : transferNonce b1 i1 = transferNonce b2 i2) : b1 = b2 ∧ i1 = i2 := by
  have h1 := transferNonce_eq b1 i1
  have h2 := transferNonce_eq b2 i2
  rw [h1, h2, hlen] at heq
  have e1 : i1 < 10 ^ decLen i2 := hlen ▸ lt_pow_decLen i1
  have e2 : i2 < 10 ^ decLen i2 := lt_pow_decLen i2
  exact mulAddCancel (10 ^ decLen i2) b1 b2 i1 i2 e1 e2 heq

/-- C5 amended witness: instantiation at block 12, index 34. -/
theorem C5_amended_witness : (12 : Nat) = 12 ∧ (34 : Nat) = 34 :=
  C5_amended 12 34 12 34 rfl rfl

end ESBridge

namespace ESBridge

/-- C2: the isFinish contract.  For every record, isFinish returns
(true, origin key) when the record executed; for a non-executed record it
returns (true, NotExecuted) exactly when some observed vote carries an
otherSignatories vector not containing the relayer account, and
(false, NotExecuted) exactly when every observed vote lists the relayer
account among the other signatories. -/
theorem C2_isFinish_spec (acct : String) (ms : MultiSigAsMulti) :
    (ms.executed = true → isFinish acct ms = (true, ms.originMsTx)) ∧
    (ms.executed = false →
      ((isFinish acct ms = (true, NotExecuted) ↔
          ∃ sigs ∈ ms.others, acct ∉ sigs) ∧
        (isFinish acct ms = (false, NotExecuted) ↔
          ∀ sigs ∈ ms.others, acct ∈ sigs))) := by
  constructor
  · intro hex
    simp [isFinish, hex]
  · intro hex
    by_cases hany : ms.others.any (fun sigs => !sigs.contains acct) = true
    · have hex2 : ∃ sigs ∈ ms.others, acct ∉ sigs := by
        simpa [List.any_eq_true, List.elem_iff] using hany
      constructor
      · simp only [isFinish, hex, Bool.false_eq_true, if_false, hany, if_true]
        exact ⟨fun _ => hex2, fun _ => trivial⟩
      · simp only [isFinish, hex, Bool.false_eq_true, if_false, hany, if_true,
          Prod.mk.injEq]
        constructor
        · intro hcon
          exact absurd hcon.1 (by simp)
        · intro hall
          obtain ⟨sigs, hmem, hnot⟩ := hex2
          exact absurd (hall sigs hmem) hnot
    · have hall : ∀ sigs ∈ ms.others, acct ∈ sigs := by
        have := hany
        simp only [List.any_eq_true, List.elem_iff] at this
        intro sigs hmem
        by_contra hno
        exact this ⟨sigs, hmem, by simpa using hno⟩
      constructor
      · simp only [isFinish, hex, Bool.false_eq_true, if_false, hany, if_false,
          Prod.mk.injEq]
        constructor
        · intro hcon
          exact absurd hcon.1 (by simp)
        · intro hsome
          obtain ⟨sigs, hmem, hnot⟩ := hsome
          exact absurd (hall sigs hmem) hnot
      · simp only [isFinish, hex, Bool.false_eq_true, if_false, hany, if_false]
        exact ⟨fun _ => hall, fun _ => trivial⟩

/-- C2 witness: for the concrete un-executed record whose single vote omits
relayer A, isFinish answers (true, NotExecuted). -/
theorem C2_witness : isFinish "A" msNotVoted = (true, NotExecuted) :=
  ((C2_isFinish_spec "A" msNotVoted).2 rfl).1.mpr ⟨["B"], by decide, by decide⟩

end ESBridge

namespace ESBridge

/-- C4 amended: the Follower never drops a UtilityBatch transfer.  For every
UtilityBatch extrinsic whose decimal amount parses, processBlock hands the
router a Transfer message — also when amount minus fee is zero or negative —
carrying the derived deposit nonce, the configured source, destination and
resource ids and the recipient bytes.  The amount field of the message is the
parsed amount minus the float-computed fee; its exact value is deliberately
not asserted here, because the fee arises from IEEE-754 double arithmetic
(see the goFee comment) and does not affect whether a message is emitted. -/
theorem C4_amended (cfg : ListenerCfg) (blockNum : Nat) (led : Ledger)
    (e : ExtrinsicResponse) (a : Int)
    (hty : e.type = ExtrinsicType.utilityBatch)
    (hparse : parseInt64 e.amount = some a) :
    ∃ m : Message, (processExtrinsic cfg blockNum led e).2.1 = some m ∧
      m.source = cfg.chainId ∧
      m.destination = cfg.destId ∧
      m.depositNonce = depositNonceOf blockNum e.extrinsicIndex ∧
      m.resourceId = cfg.resourceId ∧
      m.recipient = e.recipient := by
  obtain ⟨eidx, ety, eam, erec, efrom, epay⟩ := e
  simp only at hty hparse
  subst hty
  simp only [processExtrinsic, hparse]
  exact ⟨_, rfl, rfl, rfl, rfl, rfl, rfl⟩

/-- C4 amended witness: instantiation at the zero-amount batch extrinsic. -/
theorem C4_amended_witness :
    ∃ m : Message, (processExtrinsic ⟨1, 2, 7⟩ 10 [] batch0).2.1 = some m ∧
      m.source = 1 ∧
      m.destination = 2 ∧
      m.depositNonce = depositNonceOf 10 batch0.extrinsicIndex ∧
      m.resourceId = 7 ∧
      m.recipient = batch0.recipient :=
  C4_amended ⟨1, 2, 7⟩ 10 [] batch0 0 rfl (by decide)

end ESBridge

namespace ESBridge

/-- Lookup commutes with a key-preserving value map of the ledger. -/
theorem ledgerLookup_map (g : MultiSigAsMulti → MultiSigAsMulti) (led : Ledger)
    (k : MultiSignTx) :
    ledgerLookup (led.map (fun kv => (kv.1, g kv.2))) k =
      (ledgerLookup led k).map g := by
  induction led with
  | nil => rfl
  | cons kv t ih =>
    by_cases hk : kv.1 = k
    · simp [ledgerLookup, List.find?_cons, hk]
    · simp only [ledgerLookup, List.map_cons, List.find?_cons] at ih ⊢
      simp only [hk, decide_eq_true_eq, if_neg, decide_eq_false_iff_not,
        not_false_eq_true]
      simpa [ledgerLookup] using ih

/-- A vote update leaves an executed record unchanged. -/
theorem voteUpd_executed (dest amt : String) (sigs : List String)
    (ms : MultiSigAsMulti) (h : ms.executed = true) :
    voteUpd dest amt sigs ms = ms := by
  simp [voteUpd, h]

/-- An execution update leaves an executed record unchanged. -/
theorem execUpd_executed (dest amt : String) (ms : MultiSigAsMulti)
    (h : ms.executed = true) : execUpd dest amt ms = ms := by
  simp [execUpd, h]

/-- Lookup at a key different from the replaced one is unchanged by the
replacing map of ledgerInsert. -/
theorem ledgerLookup_replace_ne (led : Ledger) (k0 : MultiSignTx)
    (v : MultiSigAsMulti) (k : MultiSignTx) (h : k ≠ k0) :
    ledgerLookup (led.map (fun kv => if kv.1 = k0 then (k0, v) else kv)) k =
      ledgerLookup led k := by
  induction led with
  | nil => rfl
  | cons kv t ih =>
    by_cases h0 : kv.1 = k0
    · have hk : ¬(kv.1 = k) := by rw [h0]; exact fun hh => h hh.symm
      have hk0 : ¬(k0 = k) := fun hh => h hh.symm
      simp only [List.map_cons, h0, if_true, ledgerLookup,
        List.find?_cons] at ih ⊢
      simp only [hk0, hk, decide_eq_true_eq, if_neg, not_false_eq_true]
      simpa [ledgerLookup] using ih
    · simp only [List.map_cons, h0, if_false, ledgerLookup,
        List.find?_cons] at ih ⊢
      by_cases hk : kv.1 = k
      · simp [hk]
      · simp only [hk, decide_eq_true_eq, if_neg, not_false_eq_true]
        simpa [ledgerLookup] using ih

/-- Lookup at a key different from an appended binding is unchanged. -/
theorem ledgerLookup_append_one (led : Ledger) (k0 : MultiSignTx)
    (v : MultiSigAsMulti) (k : MultiSignTx) (h : k ≠ k0) :
    ledgerLookup (led ++ [(k0, v)]) k = ledgerLookup led k := by
  induction led with
  | nil =>
    have hk0 : ¬(k0 = k) := fun hh => h hh.symm
    simp [ledgerLookup, List.find?_cons, hk0]
  | cons kv t ih =>
    by_cases hk : kv.1 = k
    · simp [ledgerLookup, List.find?_cons, hk]
    · simp only [List.cons_append, ledgerLookup, List.find?_cons,
        hk] at ih ⊢
      simpa [ledgerLookup] using ih

/-- Lookup at a different key is unchanged by a ledger insert. -/
theorem ledgerLookup_insert_ne (led : Ledger) (k0 : MultiSignTx)
    (v : MultiSigAsMulti) (k : MultiSignTx) (h : k ≠ k0) :
    ledgerLookup (ledgerInsert led k0 v) k = ledgerLookup led k := by
  unfold ledgerInsert
  split
  · exact ledgerLookup_replace_ne led k0 v k h
  · exact ledgerLookup_append_one led k0 v k h

/-- One processed extrinsic leaves an executed record of a different block
untouched in the ledger. -/
theorem processExtrinsic_keeps_executed (cfg : ListenerCfg) (blockNum : Nat)
    (led : Ledger) (e : ExtrinsicResponse) (k : MultiSignTx)
    (r : MultiSigAsMulti) (hk : ledgerLookup led k = some r)
    (hex : r.executed = true) (hne : k.blockNumber ≠ (blockNum : Int)) :
    ledgerLookup (processExtrinsic cfg blockNum led e).1 k = some r := by
  obtain ⟨eidx, ety, eam, erec, efrom, epay⟩ := e
  cases ety with
  | asMultiNew =>
    have hkne : k ≠ (⟨(blockNum : Int), eidx⟩ : MultiSignTx) := by
      intro hcon
      exact hne (by rw [hcon])
    simp only [processExtrinsic]
    rw [ledgerLookup_insert_ne _ _ _ _ hkne]
    exact hk
  | asMultiApprove =>
    simp only [processExtrinsic, markVote]
    rw [ledgerLookup_map, hk]
    simp [voteUpd_executed _ _ _ _ hex]
  | asMultiExecuted =>
    simp only [processExtrinsic, markVote, markExecution]
    rw [ledgerLookup_map, ledgerLookup_map, hk]
    simp [voteUpd_executed _ _ _ _ hex, execUpd_executed _ _ _ hex]
  | utilityBatch =>
    simp only [processExtrinsic]
    cases hp : parseInt64 eam <;> simp [hp, hk]

/-- A processed block leaves an executed record of a different block untouched
in the ledger, whether or not the block aborts. -/
theorem processExtrinsics_keeps_executed (es : List ExtrinsicResponse)
    (cfg : ListenerCfg) (blockNum : Nat) (led : Ledger) (k : MultiSignTx)
    (r : MultiSigAsMulti) (hk : ledgerLookup led k = some r)
    (hex : r.executed = true) (hne : k.blockNumber ≠ (blockNum : Int)) :
    ledgerLookup (processExtrinsics cfg blockNum led es).1 k = some r := by
  induction es generalizing led with
  | nil => simpa [processExtrinsics] using hk
  | cons e rest ih =>
    have h1 := processExtrinsic_keeps_executed cfg blockNum led e k r hk hex hne
    rcases hsplit : processExtrinsic cfg blockNum led e with ⟨led1, m1, err1⟩
    rw [hsplit] at h1
    simp only [processExtrinsics, hsplit]
    cases err1 with
    | some err => simpa using h1
    | none => simpa using ih led1 h1

/-- C6: executed is monotone.  If the ledger of a follower state holds an
executed record keyed at a block below the cursor, then after processing any
further sequence of blocks the record is still present and still executed
(in fact unchanged): markVote and markExecution skip executed records, and
AsMultiNew inserts only under the key of the block being processed, which lies
at or above the cursor. -/
theorem C6_executed_monotone (blocks : List (List ExtrinsicResponse))
    (cfg : ListenerCfg) (st : FollowerState) (k : MultiSignTx)
    (r : MultiSigAsMulti) (hk : ledgerLookup st.led k = some r)
    (hex : r.executed = true) (hlt : k.blockNumber < (st.currentBlock : Int)) :
    ledgerLookup (runFollower cfg st blocks).led k = some r := by
  induction blocks generalizing st with
  | nil => simpa [runFollower] using hk
  | cons blk rest ih =>
    simp only [runFollower]
    apply ih
    · simp only [pollStep]
      exact processExtrinsics_keeps_executed blk cfg st.currentBlock st.led k r
        hk hex (by omega)
    · simp only [pollStep]
      push_cast
      omega

/-- C6 witness: the executed record at key (0, 0) survives processing one more
block unchanged. -/
theorem C6_witness :
    ledgerLookup (runFollower ⟨1, 2, 7⟩ stW [[newE 0 "ab" "100" ["B"]]]).led
      ⟨0, 0⟩ = some msW :=
  C6_executed_monotone [[newE 0 "ab" "100" ["B"]]] ⟨1, 2, 7⟩ stW ⟨0, 0⟩ msW
    (by decide) (by decide) (by decide)

end ESBridge

namespace ESBridge

/-- A key-preserving value map leaves the ledger keys unchanged. -/
theorem keys_map_value (g : MultiSigAsMulti → MultiSigAsMulti) (led : Ledger) :
    (led.map (fun kv => (kv.1, g kv.2))).map Prod.fst = led.map Prod.fst := by
  induction led with
  | nil => rfl
  | cons kv t ih => simp only [List.map_cons, ih]

/-- The replacing branch of ledgerInsert leaves the keys unchanged. -/
theorem keys_replace (led : Ledger) (k0 : MultiSignTx) (v : MultiSigAsMulti) :
    (led.map (fun kv => if kv.1 = k0 then (k0, v) else kv)).map Prod.fst =
      led.map Prod.fst := by
  induction led with
  | nil => rfl
  | cons kv t ih =>
    by_cases h0 : kv.1 = k0
    · simp [h0, ih]
    · simp [h0, ih]

/-- ledgerInsert preserves distinctness of the ledger keys. -/
theorem ledgerInsert_keys_nodup (led : Ledger) (k : MultiSignTx)
    (v : MultiSigAsMulti) (h : (led.map Prod.fst).Nodup) :
    ((ledgerInsert led k v).map Prod.fst).Nodup := by
  unfold ledgerInsert
  split
  · rw [keys_replace]
    exact h
  · rename_i hany
    have hk : k ∉ led.map Prod.fst := by
      intro hmem
      obtain ⟨kv, hkv, hfst⟩ := List.mem_map.mp hmem
      have hx : led.any (fun kv => decide (kv.1 = k)) = true :=
        List.any_eq_true.mpr ⟨kv, hkv, by simp [hfst]⟩
      exact hany hx
    rw [List.map_append]
    simp only [List.map_cons, List.map_nil]
    apply List.Nodup.append h (List.nodup_singleton k)
    intro x hx hxk
    rw [List.mem_singleton] at hxk
    subst hxk
    exact hk hx

/-- One processed extrinsic preserves distinctness of the ledger keys. -/
theorem processExtrinsic_keys_nodup (cfg : ListenerCfg) (blockNum : Nat)
    (led : Ledger) (e : ExtrinsicResponse)
    (h : (led.map Prod.fst).Nodup) :
    (((processExtrinsic cfg blockNum led e).1).map Prod.fst).Nodup := by
  obtain ⟨eidx, ety, eam, erec, efrom, epay⟩ := e
  cases ety with
  | asMultiNew =>
    simp only [processExtrinsic]
    exact ledgerInsert_keys_nodup led _ _ h
  | asMultiApprove =>
    simp only [processExtrinsic, markVote]
    rw [keys_map_value]
    exact h
  | asMultiExecuted =>
    simp only [processExtrinsic, markVote, markExecution]
    rw [keys_map_value, keys_map_value]
    exact h
  | utilityBatch =>
    simp only [processExtrinsic]
    cases hp : parseInt64 eam <;> simp [hp, h]

/-- One processed block preserves distinctness of the ledger keys, whether or
not the block aborts. -/
theorem processExtrinsics_keys_nodup (es : List ExtrinsicResponse)
    (cfg : ListenerCfg) (blockNum : Nat) (led : Ledger)
    (h : (led.map Prod.fst).Nodup) :
    (((processExtrinsics cfg blockNum led es).1).map Prod.fst).Nodup := by
  induction es generalizing led with
  | nil => simpa [processExtrinsics] using h
  | cons e rest ih =>
    have h1 := processExtrinsic_keys_nodup cfg blockNum led e h
    rcases hsplit : processExtrinsic cfg blockNum led e with ⟨led1, m1, err1⟩
    rw [hsplit] at h1
    simp only [processExtrinsics, hsplit]
    cases err1 with
    | some err => simpa using h1
    | none => simpa using ih led1 h1

/-- Any follower run preserves distinctness of the ledger keys. -/
theorem runFollower_keys_nodup (blocks : List (List ExtrinsicResponse))
    (cfg : ListenerCfg) (st : FollowerState)
    (h : (st.led.map Prod.fst).Nodup) :
    (((runFollower cfg st blocks).led).map Prod.fst).Nodup := by
  induction blocks generalizing st with
  | nil => simpa [runFollower] using h
  | cons blk rest ih =>
    simp only [runFollower]
    apply ih
    simp only [pollStep]
    exact processExtrinsics_keys_nodup blk cfg st.currentBlock st.led h

/-- C3 amended: starting from the empty ledger, every follower run keeps the
ledger keyed by pairwise distinct origin (block, index) keys: at most one
record per origin key.  Uniqueness of un-executed records per
(destAddress, destAmount) does not hold, because AsMultiNew inserts
unconditionally. -/
theorem C3_amended (cfg : ListenerCfg) (startBlock : Nat)
    (blocks : List (List ExtrinsicResponse)) :
    (((runFollower cfg (initFollower startBlock) blocks).led).map
      Prod.fst).Nodup :=
  runFollower_keys_nodup blocks cfg (initFollower startBlock)
    (by simp [initFollower])

end ESBridge
